import Mathlib

/-!
# Shallow embedding of the codecrafters DNS server (Rust) and verification

This development embeds the DNS wire codec of `src/message.rs` and the
responder logic of `src/main.rs` as executable Lean definitions over
byte lists (`List Nat`, each entry intended `< 256`), and proves or
refutes the specification claims about them.

Conventions:
* A Rust `Cursor<&[u8]>` is modelled as the pair of the full buffer
  (`buf : List Nat`) and a position (`pos : Nat`); every parser returns
  `Except DnsError (result × newPos)`.
* `u8`/`u16`/`u32` values are `Nat` with explicit `% 2^w` where the Rust
  code can overflow; big-endian assembly `u16::from_be_bytes [a, b]`
  becomes `a * 256 + b`, and `to_be_bytes` the matching divisions.
* The `Name::try_parse` loop is written as an iterated step function with
  explicit fuel; the fuel `remaining + 1` is proved sufficient, which is
  exactly the termination argument for the Rust loop.

The file is organised as definitions first, then the theorems.
-/

deriving instance DecidableEq for Except

namespace Dns

/-- `bytes::TryGetError` carried by `DnsError::NotEnoughData`. -/
structure TryGetError where
  requested : Nat
  available : Nat
  deriving Repr, DecidableEq

/-- `DnsError` from `src/error.rs`. -/
inductive DnsError where
  | NotEnoughData : TryGetError → DnsError
  | InvalidName : String → DnsError
  | InvalidType : DnsError
  | InvalidClass : DnsError
  deriving Repr, DecidableEq

/-- `true → 1, false → 0`, the Rust `as u8` on `bool`. -/
def b2n (b : Bool) : Nat := if b then 1 else 0

/-- Remaining bytes of the cursor: `buf.remaining()` = `len - pos`. -/
def remaining (buf : List Nat) (pos : Nat) : Nat := buf.length - pos

/-- `Buf::try_get_u8`: one byte at the cursor, or `NotEnoughData`. -/
def getU8 (buf : List Nat) (pos : Nat) : Except DnsError (Nat × Nat) :=
  if h : pos < buf.length then .ok (buf.get ⟨pos, h⟩, pos + 1)
  else .error (.NotEnoughData ⟨1, remaining buf pos⟩)

/-- `Buf::try_get_u16` (big endian), or `NotEnoughData`. -/
def getU16 (buf : List Nat) (pos : Nat) : Except DnsError (Nat × Nat) :=
  if h : pos + 1 < buf.length then
    .ok (buf.get ⟨pos, by omega⟩ * 256 + buf.get ⟨pos + 1, h⟩, pos + 2)
  else .error (.NotEnoughData ⟨2, remaining buf pos⟩)

/-- `Buf::try_get_u32` (big endian), or `NotEnoughData`. -/
def getU32 (buf : List Nat) (pos : Nat) : Except DnsError (Nat × Nat) :=
  if h : pos + 3 < buf.length then
    .ok (buf.get ⟨pos, by omega⟩ * 16777216 + buf.get ⟨pos + 1, by omega⟩ * 65536 +
          buf.get ⟨pos + 2, by omega⟩ * 256 + buf.get ⟨pos + 3, h⟩, pos + 4)
  else .error (.NotEnoughData ⟨4, remaining buf pos⟩)

/-- `u16::to_be_bytes` of a (possibly wrapped) value. -/
def beBytes16 (v : Nat) : List Nat := [v / 256 % 256, v % 256]

/-- `u32::to_be_bytes`. -/
def beBytes32 (v : Nat) : List Nat :=
  [v / 16777216 % 256, v / 65536 % 256, v / 256 % 256, v % 256]

/-- `Opcode` from `src/message.rs` (the `Invalid` variant has Rust
discriminant 3, the next free value). -/
inductive Opcode where
  | StandardQuery
  | InverseQuery
  | ServerStatusRequest
  | Invalid
  deriving Repr, DecidableEq, Fintype

/-- The Rust `as u8` discriminant of `Opcode`. -/
def Opcode.toNat : Opcode → Nat
  | .StandardQuery => 0
  | .InverseQuery => 1
  | .ServerStatusRequest => 2
  | .Invalid => 3

/-- `DnsHeader` from `src/message.rs`. Field widths are those of the Rust
types (`u16`/`bool`/`u8`); values are plain `Nat`s. -/
structure DnsHeader where
  id : Nat
  qr_indicator : Bool
  opcode : Opcode
  authoritative_answer : Bool
  truncation : Bool
  recursion_desired : Bool
  recursion_available : Bool
  reserved : Nat
  response_code : Nat
  question_count : Nat
  answer_record_count : Nat
  authority_record_count : Nat
  additional_record_count : Nat
  deriving Repr, DecidableEq

/-- The opcode `match` of `DnsHeader::try_parse` on `b & 0b0111_1000`. -/
def opcodeOfBits (b : Nat) : Opcode :=
  if b &&& 0b01111000 = 0b00000000 then Opcode.StandardQuery
  else if b &&& 0b01111000 = 0b00001000 then Opcode.InverseQuery
  else if b &&& 0b01111000 = 0b00010000 then Opcode.ServerStatusRequest
  else Opcode.Invalid

namespace DnsHeader

/-- `DnsHeader::try_parse`: needs 12 bytes, then unpacks the bit fields. -/
def tryParse (buf : List Nat) (pos : Nat) : Except DnsError (DnsHeader × Nat) :=
  if h : remaining buf pos < 12 then
    .error (.NotEnoughData ⟨12, remaining buf pos⟩)
  else
    have hl : pos + 11 < buf.length := by unfold remaining at h; omega
    let id := buf.get ⟨pos, by omega⟩ * 256 + buf.get ⟨pos + 1, by omega⟩
    let b := buf.get ⟨pos + 2, by omega⟩
    let qr_indicator := b &&& 0b10000000 != 0
    let opcode := opcodeOfBits b
    let authoritative_answer := b &&& 0b00000100 != 0
    let truncation := b &&& 0b00000010 != 0
    let recursion_desired := b &&& 0b00000001 != 0
    let b2 := buf.get ⟨pos + 3, by omega⟩
    let recursion_available := b2 &&& 0b10000000 != 0
    let reserved := (b2 &&& 0b01110000) >>> 4
    let response_code := b2 &&& 0b00001111
    let question_count := buf.get ⟨pos + 4, by omega⟩ * 256 + buf.get ⟨pos + 5, by omega⟩
    let answer_record_count := buf.get ⟨pos + 6, by omega⟩ * 256 + buf.get ⟨pos + 7, by omega⟩
    let authority_record_count := buf.get ⟨pos + 8, by omega⟩ * 256 + buf.get ⟨pos + 9, by omega⟩
    let additional_record_count := buf.get ⟨pos + 10, by omega⟩ * 256 + buf.get ⟨pos + 11, hl⟩
    .ok (⟨id, qr_indicator, opcode, authoritative_answer, truncation, recursion_desired,
          recursion_available, reserved, response_code, question_count, answer_record_count,
          authority_record_count, additional_record_count⟩, pos + 12)

/-- `ByteSerialize for DnsHeader`: the 12 header bytes. The two flag bytes
use the same shifts and ors as the Rust code; `reserved << 4` is a `u8`
shift, hence the `% 256`. -/
def serialize (h : DnsHeader) : List Nat :=
  beBytes16 h.id ++
  [(b2n h.qr_indicator <<< 7) ||| (h.opcode.toNat <<< 3) |||
     (b2n h.authoritative_answer <<< 2) ||| (b2n h.truncation <<< 1) |||
     b2n h.recursion_desired,
   (b2n h.recursion_available <<< 7) ||| (h.reserved <<< 4 % 256) ||| h.response_code] ++
  beBytes16 h.question_count ++ beBytes16 h.answer_record_count ++
  beBytes16 h.authority_record_count ++ beBytes16 h.additional_record_count

end DnsHeader

/-- A `Label` from `src/message.rs`; the Rust field `section` (a borrowed
byte slice) is called `sect` here because `section` is a Lean keyword. -/
structure Label where
  sect : List Nat
  deriving Repr, DecidableEq

/-- A `Name` is a sequence of labels. -/
structure Name where
  labels : List Label
  deriving Repr, DecidableEq

/-- Rust `packet[offset..].iter().position(|&b| b == 0)`: index of the
first zero byte, if any. -/
def position0 : List Nat → Option Nat
  | [] => none
  | b :: t => if b = 0 then some 0 else (position0 t).map (· + 1)

/-- One iteration of the `Name::try_parse` loop. `inl` is a finished name
with the final cursor position (the `break` paths and the `Ok` return);
`inr` is the continuing state `(new cursor, labels so far)`. -/
def parseStep (buf : List Nat) (pos : Nat) (labels : List Label) :
    Except DnsError ((Name × Nat) ⊕ (Nat × List Label)) :=
  if h : pos < buf.length then
    let b := buf.get ⟨pos, h⟩
    if b = 0 then .ok (.inl (⟨labels⟩, pos + 1))
    else if b &&& 0b11000000 = 0b11000000 then
      -- compressed label: the low 6 bits and the next byte form the offset
      match getU8 buf (pos + 1) with
      | .error e => .error e
      | .ok (b2, pos2) =>
        let offset := (b &&& 0b00111111) * 256 + b2
        if offset ≥ buf.length then .error (.InvalidName "reference out of bounds")
        else
          match position0 (buf.drop offset) with
          | none => .error (.InvalidName "null terminator missing")
          | some p => .ok (.inl (⟨labels ++ [⟨(buf.drop offset).take p⟩]⟩, pos2))
    else if remaining buf (pos + 1) < b then
      .error (.NotEnoughData ⟨b, remaining buf (pos + 1)⟩)
    else
      -- uncompressed label: `buf[pos..pos + 1 + len]`, length byte included
      let labels2 := labels ++ [⟨(buf.drop pos).take (b + 1)⟩]
      if labels2.length > 30 then .ok (.inl (⟨labels2⟩, pos + 1 + b))
      else .ok (.inr (pos + 1 + b, labels2))
  else .error (.NotEnoughData ⟨1, remaining buf pos⟩)

/-- The `Name::try_parse` loop, iterating `parseStep` with fuel. -/
def Name.parseLoopF : Nat → List Nat → Nat → List Label →
    Option (Except DnsError (Name × Nat))
  | 0, _, _, _ => none
  | fuel + 1, buf, pos, labels =>
    match parseStep buf pos labels with
    | .error e => some (.error e)
    | .ok (.inl r) => some (.ok r)
    | .ok (.inr (pos2, labels2)) => Name.parseLoopF fuel buf pos2 labels2

/-- `Name::try_parse`. The Rust loop carries no fuel; `remaining + 1`
iterations always suffice (proved below: every continuing step consumes
at least one byte), so the `getD` default is never taken. -/
def Name.tryParse (buf : List Nat) (pos : Nat) : Except DnsError (Name × Nat) :=
  (Name.parseLoopF (buf.length - pos + 1) buf pos []).getD
    (.error (.InvalidName "unreachable"))

/-- `ByteSerialize for Label`: writes the stored section verbatim. -/
def Label.serialize (l : Label) : List Nat := l.sect

/-- `ByteSerialize for Name`: each label section, then a zero octet. -/
def Name.serialize (n : Name) : List Nat :=
  (n.labels.map Label.sect).flatten ++ [0]

/-- `Type` from `src/message.rs` (named `DnsType`: `Type` is a Lean
universe keyword). -/
inductive DnsType where
  | A | NS | MD | MF | CNAME | SOA | MB | MG | MR | NULL | WKS | PTR
  | HINFO | MINFO | MX | TXT
  | AXFR | MAILB | MAILA | Wildcard
  deriving Repr, DecidableEq, Fintype

/-- The Rust discriminant of `Type` (its `as u16` value). -/
def DnsType.toNat : DnsType → Nat
  | .A => 1 | .NS => 2 | .MD => 3 | .MF => 4 | .CNAME => 5 | .SOA => 6
  | .MB => 7 | .MG => 8 | .MR => 9 | .NULL => 10 | .WKS => 11 | .PTR => 12
  | .HINFO => 13 | .MINFO => 14 | .MX => 15 | .TXT => 16
  | .AXFR => 252 | .MAILB => 253 | .MAILA => 254 | .Wildcard => 255

/-- `impl TryFrom<u16> for Type`. -/
def DnsType.tryFrom (v : Nat) : Except DnsError DnsType :=
  if v = 1 then .ok .A
  else if v = 2 then .ok .NS
  else if v = 3 then .ok .MD
  else if v = 4 then .ok .MF
  else if v = 5 then .ok .CNAME
  else if v = 6 then .ok .SOA
  else if v = 7 then .ok .MB
  else if v = 8 then .ok .MG
  else if v = 9 then .ok .MR
  else if v = 10 then .ok .NULL
  else if v = 11 then .ok .WKS
  else if v = 12 then .ok .PTR
  else if v = 13 then .ok .HINFO
  else if v = 14 then .ok .MINFO
  else if v = 15 then .ok .MX
  else if v = 16 then .ok .TXT
  else if v = 252 then .ok .AXFR
  else if v = 253 then .ok .MAILB
  else if v = 254 then .ok .MAILA
  else if v = 255 then .ok .Wildcard
  else .error .InvalidType

/-- `Class` from `src/message.rs` (named `DnsClass` to avoid clashing with
Mathlib's `Class`). -/
inductive DnsClass where
  | IN | CS | CH | HS | Wildcard
  deriving Repr, DecidableEq, Fintype

/-- The Rust discriminant of `Class` (its `as u16` value). -/
def DnsClass.toNat : DnsClass → Nat
  | .IN => 1 | .CS => 2 | .CH => 3 | .HS => 4 | .Wildcard => 255

/-- `impl TryFrom<u16> for Class`. -/
def DnsClass.tryFrom (v : Nat) : Except DnsError DnsClass :=
  if v = 1 then .ok .IN
  else if v = 2 then .ok .CS
  else if v = 3 then .ok .CH
  else if v = 4 then .ok .HS
  else if v = 255 then .ok .Wildcard
  else .error .InvalidClass

/-- `DnsQuestion` from `src/message.rs`. -/
structure DnsQuestion where
  name : Name
  qtype : DnsType
  qclass : DnsClass
  deriving Repr, DecidableEq

namespace DnsQuestion

/-- `DnsQuestion::try_parse`: name, then 16-bit type, then 16-bit class. -/
def tryParse (buf : List Nat) (pos : Nat) : Except DnsError (DnsQuestion × Nat) :=
  match Name.tryParse buf pos with
  | .error e => .error e
  | .ok (name, pos1) =>
    match getU16 buf pos1 with
    | .error e => .error e
    | .ok (tv, pos2) =>
      match DnsType.tryFrom tv with
      | .error e => .error e
      | .ok qtype =>
        match getU16 buf pos2 with
        | .error e => .error e
        | .ok (cv, pos3) =>
          match DnsClass.tryFrom cv with
          | .error e => .error e
          | .ok qclass => .ok (⟨name, qtype, qclass⟩, pos3)

/-- `ByteSerialize for DnsQuestion`. -/
def serialize (q : DnsQuestion) : List Nat :=
  q.name.serialize ++ beBytes16 q.qtype.toNat ++ beBytes16 q.qclass.toNat

end DnsQuestion

/-- `RData` from `src/message.rs`: only the `A` variant exists. -/
structure RData where
  address : Nat
  deriving Repr, DecidableEq

/-- `ByteSerialize for RData`: hardcoded rdlength 4, then the address. -/
def RData.serialize (r : RData) : List Nat :=
  [0, 4] ++ beBytes32 r.address

/-- `ResourceRecord` from `src/message.rs`. -/
structure ResourceRecord where
  name : Name
  atype : DnsType
  aclass : DnsClass
  ttl : Nat
  rdata : RData
  deriving Repr, DecidableEq

namespace ResourceRecord

/-- `ResourceRecord::try_parse`: name, type, class, TTL, rdlength
(consumed, unvalidated), then a 4-byte address read as `A` data. -/
def tryParse (buf : List Nat) (pos : Nat) : Except DnsError (ResourceRecord × Nat) :=
  match Name.tryParse buf pos with
  | .error e => .error e
  | .ok (name, pos1) =>
    match getU16 buf pos1 with
    | .error e => .error e
    | .ok (tv, pos2) =>
      match DnsType.tryFrom tv with
      | .error e => .error e
      | .ok atype =>
        match getU16 buf pos2 with
        | .error e => .error e
        | .ok (cv, pos3) =>
          match DnsClass.tryFrom cv with
          | .error e => .error e
          | .ok aclass =>
            match getU32 buf pos3 with
            | .error e => .error e
            | .ok (ttl, pos4) =>
              match getU16 buf pos4 with
              | .error e => .error e
              | .ok (_, pos5) =>
                match getU32 buf pos5 with
                | .error e => .error e
                | .ok (address, pos6) =>
                  .ok (⟨name, atype, aclass, ttl, ⟨address⟩⟩, pos6)

/-- `ByteSerialize for ResourceRecord`. -/
def serialize (r : ResourceRecord) : List Nat :=
  r.name.serialize ++ beBytes16 r.atype.toNat ++ beBytes16 r.aclass.toNat ++
  beBytes32 r.ttl ++ r.rdata.serialize

end ResourceRecord

/-- `DnsMessage` from `src/message.rs`. -/
structure DnsMessage where
  header : DnsHeader
  questions : List DnsQuestion
  records : List ResourceRecord
  deriving Repr, DecidableEq

/-- The `for _ in 0..n { X::try_parse(buf)? }` loops of
`DnsMessage::try_parse`, abstracted over the element parser. -/
def parseCount {α : Type} (p : List Nat → Nat → Except DnsError (α × Nat))
    (buf : List Nat) : Nat → Nat → Except DnsError (List α × Nat)
  | 0, pos => .ok ([], pos)
  | n + 1, pos =>
    match p buf pos with
    | .error e => .error e
    | .ok (x, pos1) =>
      match parseCount p buf n pos1 with
      | .error e => .error e
      | .ok (xs, pos2) => .ok (x :: xs, pos2)

namespace DnsMessage

/-- `DnsMessage::try_parse`: header, then exactly `question_count`
questions, then exactly `answer_record_count` records. -/
def tryParse (buf : List Nat) (pos : Nat) : Except DnsError (DnsMessage × Nat) :=
  match DnsHeader.tryParse buf pos with
  | .error e => .error e
  | .ok (header, pos1) =>
    match parseCount DnsQuestion.tryParse buf header.question_count pos1 with
    | .error e => .error e
    | .ok (questions, pos2) =>
      match parseCount ResourceRecord.tryParse buf header.answer_record_count pos2 with
      | .error e => .error e
      | .ok (records, pos3) => .ok (⟨header, questions, records⟩, pos3)

/-- `ByteSerialize for DnsMessage`. -/
def serialize (m : DnsMessage) : List Nat :=
  m.header.serialize ++ (m.questions.map DnsQuestion.serialize).flatten ++
  (m.records.map ResourceRecord.serialize).flatten

end DnsMessage

/-- A label as `Name::serialize` expects it: a length byte (nonzero, not a
compression tag, i.e. top two bits not `11`) followed by exactly that many
content bytes. Uncompressed labels produced by `Name::try_parse` from
well-formed input have this shape. -/
def wfLabel (l : Label) : Bool :=
  match l.sect with
  | [] => false
  | len :: data => data.length == len && len != 0 && (len &&& 192) != 192

/-- The stub-answer branch of `handle` in `src/main.rs` (`resolver = None`):
header rewritten in place, one synthesized `A 8.8.8.8` record per question.
The Rust code indexes `questions[i]` for `i < header.question_count`; for
parsed messages that is always in bounds (claim C8), so the `getD` default
is unreachable there. `8.8.8.8` is `u32::from_be_bytes [8,8,8,8] =
134744072`. -/
def handleStub (m : DnsMessage) : DnsMessage :=
  let header : DnsHeader :=
    ⟨m.header.id, true, m.header.opcode, false, false, m.header.recursion_desired,
      false, 0, (if m.header.opcode = .StandardQuery then 0 else 4),
      m.header.question_count, m.header.question_count,
      m.header.authority_record_count, m.header.additional_record_count⟩
  let records : List ResourceRecord :=
    (List.range m.header.question_count).map (fun i =>
      ⟨(m.questions.getD i ⟨⟨[]⟩, .A, .IN⟩).name, .A, .IN, 60, ⟨134744072⟩⟩)
  ⟨header, m.questions, records⟩

/-- Outcome of one upstream round-trip (bind/connect/send/recv) in
`handle_forward_query`: an I/O failure, or the received reply datagram. -/
inductive NetResult where
  | fail
  | reply (bytes : List Nat)

/-- The sub-query loop of `handle_forward_query`: for each question index,
perform the upstream round-trip and decode the reply, extending the
aggregate answer list; any I/O or decode failure aborts with `none`
(the Rust `?` operator propagating the error to the caller). -/
def forwardAnswers (net : Nat → NetResult) : List Nat → Option (List ResourceRecord)
  | [] => some []
  | i :: rest =>
    match net i with
    | .fail => none
    | .reply bytes =>
      match DnsMessage.tryParse bytes 0 with
      | .error _ => none
      | .ok (reply, _) =>
        match forwardAnswers net rest with
        | none => none
        | some answers => some (reply.records ++ answers)

/-- `handle_forward_query` from `src/main.rs`, with the network abstracted
as an oracle from sub-query index to `NetResult`: returns the single reply
datagram sent to the original client, or `none` when any sub-query failed
and the whole response was aborted (error reported to the caller, nothing
sent). The reply header is rewritten like the stub branch but with
`answer_record_count = answers.len()`. -/
def handleForwardQuery (m : DnsMessage) (net : Nat → NetResult) : Option (List Nat) :=
  match forwardAnswers net (List.range m.header.question_count) with
  | none => none
  | some answers =>
    let header : DnsHeader :=
      ⟨m.header.id, true, m.header.opcode, false, false, m.header.recursion_desired,
        false, 0, (if m.header.opcode = .StandardQuery then 0 else 4),
        m.header.question_count, answers.length,
        m.header.authority_record_count, m.header.additional_record_count⟩
    some (DnsMessage.serialize ⟨header, m.questions, answers⟩)

/-! ## Theorems -/

/-- Bit fields of the third header byte round-trip through the packing of
`DnsHeader::serialize` and the unpacking of `DnsHeader::try_parse`. -/
theorem flagsByteFields : ∀ (qr aa tc rd : Bool) (op : Opcode),
    (((b2n qr <<< 7) ||| (op.toNat <<< 3) ||| (b2n aa <<< 2) ||| (b2n tc <<< 1) ||| b2n rd) &&& 128 != 0) = qr ∧
    opcodeOfBits ((b2n qr <<< 7) ||| (op.toNat <<< 3) ||| (b2n aa <<< 2) ||| (b2n tc <<< 1) ||| b2n rd) = op ∧
    (((b2n qr <<< 7) ||| (op.toNat <<< 3) ||| (b2n aa <<< 2) ||| (b2n tc <<< 1) ||| b2n rd) &&& 4 != 0) = aa ∧
    (((b2n qr <<< 7) ||| (op.toNat <<< 3) ||| (b2n aa <<< 2) ||| (b2n tc <<< 1) ||| b2n rd) &&& 2 != 0) = tc ∧
    (((b2n qr <<< 7) ||| (op.toNat <<< 3) ||| (b2n aa <<< 2) ||| (b2n tc <<< 1) ||| b2n rd) &&& 1 != 0) = rd := by
  decide

/-- Bit fields of the fourth header byte round-trip, provided the reserved
field fits in the 3 bits that `try_parse` extracts. -/
theorem raByteFields : ∀ (ra : Bool) (r : Fin 8) (c : Fin 16),
    (((b2n ra <<< 7) ||| (r.val <<< 4 % 256) ||| c.val) &&& 128 != 0) = ra ∧
    (((b2n ra <<< 7) ||| (r.val <<< 4 % 256) ||| c.val) &&& 0b01110000) >>> 4 = r.val ∧
    ((b2n ra <<< 7) ||| (r.val <<< 4 % 256) ||| c.val) &&& 15 = c.val := by
  decide

/-- C2 (counterexample): a header whose `reserved` field uses all 4 bits of
the claimed width — here `reserved = 8` — does NOT round-trip:
`serialize` shifts the high reserved bit into the RA position and
`try_parse` reads back `recursion_available = true, reserved = 0`. -/
theorem C2_reserved_width4_no_roundtrip :
    DnsHeader.tryParse
        (DnsHeader.serialize ⟨0, false, .StandardQuery, false, false, false, false, 8, 0, 0, 0, 0, 0⟩) 0 ≠
      .ok (⟨0, false, .StandardQuery, false, false, false, false, 8, 0, 0, 0, 0, 0⟩, 12) := by
  decide

/-- C2 (amended): for every `DnsHeader` whose fields fit the widths the code
actually preserves — 16-bit id and counts, 4-bit response code, and a
**3-bit** reserved field (`try_parse` masks `0b0111_0000`, so only values
`< 8` round-trip) — parsing the 12 serialized bytes yields the header back
and leaves the cursor at 12. -/
theorem C2_header_roundtrip (h : DnsHeader)
    (hid : h.id < 65536) (hrs : h.reserved < 8) (hrc : h.response_code < 16)
    (hqc : h.question_count < 65536) (hac : h.answer_record_count < 65536)
    (hnc : h.authority_record_count < 65536) (harc : h.additional_record_count < 65536) :
    DnsHeader.tryParse h.serialize 0 = .ok (h, 12) := by
  obtain ⟨id, qr, op, aa, tc, rd, ra, rs, rc, qc, ac, nc, arc⟩ := h
  simp only at hid hrs hrc hqc hac hnc harc
  have h2 := flagsByteFields qr aa tc rd op
  have h3 := raByteFields ra ⟨rs, hrs⟩ ⟨rc, hrc⟩
  simp only [DnsHeader.serialize, DnsHeader.tryParse, beBytes16, remaining, List.length] at *
  norm_num [List.get] at *
  obtain ⟨e1, e2, e3, e4, e5⟩ := h2
  obtain ⟨f1, f2, f3⟩ := h3
  exact ⟨by omega, e1, e2, e3, e4, e5, f1, f2, f3, by omega, by omega, by omega, by omega⟩

/-- C2 witness: the amended round-trip at a concrete header. -/
theorem C2_header_roundtrip_witness :
    DnsHeader.tryParse
        (DnsHeader.serialize ⟨0x1234, true, .InverseQuery, false, true, false, true, 7, 15, 300, 2, 1, 65535⟩) 0 =
      .ok (⟨0x1234, true, .InverseQuery, false, true, false, true, 7, 15, 300, 2, 1, 65535⟩, 12) :=
  C2_header_roundtrip ⟨0x1234, true, .InverseQuery, false, true, false, true, 7, 15, 300, 2, 1, 65535⟩
    (by decide) (by decide) (by decide) (by decide) (by decide) (by decide) (by decide)

/-- A continuing `parseStep` consumes at least two bytes (one length byte
plus a nonempty label), stays in bounds, appends exactly one label, and
only continues while at most 30 labels are accumulated. -/
theorem parseStep_inr {buf : List Nat} {pos : Nat} {labels : List Label}
    {pos2 : Nat} {labels2 : List Label}
    (h : parseStep buf pos labels = .ok (.inr (pos2, labels2))) :
    pos + 2 ≤ pos2 ∧ pos2 ≤ buf.length ∧
      labels2.length = labels.length + 1 ∧ labels2.length ≤ 30 := by
  simp only [parseStep, remaining] at h
  split at h
  · split at h
    · exact absurd h (by simp)
    · split at h
      · split at h
        · exact absurd h (by simp)
        · split at h
          · exact absurd h (by simp)
          · split at h
            · exact absurd h (by simp)
            · exact absurd h (by simp)
      · split at h
        · exact absurd h (by simp)
        · split at h
          · exact absurd h (by simp)
          · simp only [Except.ok.injEq, Sum.inr.injEq, Prod.mk.injEq] at h
            obtain ⟨h1, h2⟩ := h
            refine ⟨by omega, by omega, ?_, ?_⟩
            · rw [← h2]; simp
            · rw [← h2]
              simp only [List.length_append, List.length_cons, List.length_nil] at *
              omega
  · exact absurd h (by simp)

/-- A finished `parseStep` adds at most one label and ends in bounds. -/
theorem parseStep_inl {buf : List Nat} {pos : Nat} {labels : List Label}
    {n : Name} {e : Nat}
    (h : parseStep buf pos labels = .ok (.inl (n, e))) :
    n.labels.length ≤ labels.length + 1 ∧ e ≤ buf.length := by
  simp only [parseStep, getU8, remaining] at h
  split at h
  · split at h
    · simp only [Except.ok.injEq, Sum.inl.injEq, Prod.mk.injEq] at h
      obtain ⟨h1, h2⟩ := h
      rw [← h1]
      exact ⟨by simp, by omega⟩
    · split at h
      · split at h
        · exact absurd h (by simp)
        · rename_i b2 pos2 heq
          split at h
          · exact absurd h (by simp)
          · split at h
            · exact absurd h (by simp)
            · simp only [Except.ok.injEq, Sum.inl.injEq, Prod.mk.injEq] at h
              obtain ⟨h1, h2⟩ := h
              rw [← h1]
              refine ⟨by simp, ?_⟩
              split at heq
              · simp only [Except.ok.injEq, Prod.mk.injEq] at heq
                omega
              · exact absurd heq (by simp)
      · split at h
        · exact absurd h (by simp)
        · split at h
          · simp only [Except.ok.injEq, Sum.inl.injEq, Prod.mk.injEq] at h
            obtain ⟨h1, h2⟩ := h
            rw [← h1]
            exact ⟨by simp, by omega⟩
          · exact absurd h (by simp)
  · exact absurd h (by simp)

/-- The loop reaches a result whenever the fuel exceeds the remaining
byte count: every continuing step strictly shrinks `buf.length - pos`. -/
theorem parseLoopF_isSome : ∀ (fuel : Nat) (buf : List Nat) (pos : Nat)
    (labels : List Label), buf.length - pos < fuel →
    (Name.parseLoopF fuel buf pos labels).isSome := by
  intro fuel
  induction fuel with
  | zero => intro buf pos labels h; omega
  | succ f ih =>
    intro buf pos labels h
    simp only [Name.parseLoopF]
    cases hs : parseStep buf pos labels with
    | error e => simp
    | ok v =>
      cases v with
      | inl r => simp
      | inr s =>
        obtain ⟨pos2, labels2⟩ := s
        have hb := parseStep_inr hs
        exact ih buf pos2 labels2 (by omega)

/-- The loop result does not depend on the fuel, once sufficient. -/
theorem parseLoopF_fuelIrrel : ∀ (f1 : Nat) (buf : List Nat) (pos : Nat)
    (labels : List Label) (f2 : Nat), buf.length - pos < f1 →
    buf.length - pos < f2 →
    Name.parseLoopF f1 buf pos labels = Name.parseLoopF f2 buf pos labels := by
  intro f1
  induction f1 with
  | zero => intro buf pos labels f2 h1 h2; omega
  | succ f ih =>
    intro buf pos labels f2 h1 h2
    cases f2 with
    | zero => omega
    | succ g =>
      simp only [Name.parseLoopF]
      cases hs : parseStep buf pos labels with
      | error e => rfl
      | ok v =>
        cases v with
        | inl r => rfl
        | inr s =>
          obtain ⟨pos2, labels2⟩ := s
          have hb := parseStep_inr hs
          exact ih buf pos2 labels2 g (by omega) (by omega)

/-- Any sufficient fuel reproduces `Name.tryParse`. -/
theorem parseLoopF_eq_tryParse (buf : List Nat) (pos : Nat) (fuel : Nat)
    (h : buf.length - pos < fuel) :
    Name.parseLoopF fuel buf pos [] = some (Name.tryParse buf pos) := by
  have h1 := parseLoopF_isSome (buf.length - pos + 1) buf pos [] (by omega)
  have h2 := parseLoopF_fuelIrrel fuel buf pos [] (buf.length - pos + 1) h (by omega)
  unfold Name.tryParse
  rw [h2]
  obtain ⟨r, hr⟩ := Option.isSome_iff_exists.mp h1
  rw [hr]
  rfl

/-- `Name.tryParse` agrees with the fueled loop at the canonical fuel. -/
theorem tryParse_loop (buf : List Nat) (pos : Nat) :
    Name.parseLoopF (buf.length - pos + 1) buf pos [] =
      some (Name.tryParse buf pos) :=
  parseLoopF_eq_tryParse buf pos (buf.length - pos + 1) (by omega)

/-- C10: `Name::try_parse` terminates on every input buffer and cursor:
the loop, run with any fuel exceeding the remaining byte count, completes
with the parse result — each iteration either consumes at least one byte,
errors, or stops the name, so no arrangement of compression pointers
(including self-referential ones) can make it run forever. -/
theorem C10_name_parse_terminates (buf : List Nat) (pos : Nat) (fuel : Nat)
    (h : buf.length - pos < fuel) :
    Name.parseLoopF fuel buf pos [] = some (Name.tryParse buf pos) :=
  parseLoopF_eq_tryParse buf pos fuel h

/-- C10 witness: a buffer whose name is a compression pointer pointing at
itself still parses in bounded steps (here it errors on the missing
terminator, but crucially it returns). -/
theorem C10_name_parse_terminates_witness :
    [192, 0].length - 0 < 3 ∧
      Name.parseLoopF 3 [192, 0] 0 [] = some (Name.tryParse [192, 0] 0) :=
  ⟨by decide, C10_name_parse_terminates [192, 0] 0 3 (by decide)⟩

/-- A successful loop run started with at most 30 accumulated labels ends
with at most 31: the count check runs after each push and the pointer and
cut-off exits add one final label. -/
theorem parseLoopF_labels_le : ∀ (fuel : Nat) (buf : List Nat) (pos : Nat)
    (labels : List Label) (n : Name) (e : Nat), labels.length ≤ 30 →
    Name.parseLoopF fuel buf pos labels = some (.ok (n, e)) →
    n.labels.length ≤ 31 := by
  intro fuel
  induction fuel with
  | zero => intro buf pos labels n e hl h; simp [Name.parseLoopF] at h
  | succ f ih =>
    intro buf pos labels n e hl h
    simp only [Name.parseLoopF] at h
    cases hs : parseStep buf pos labels with
    | error er => rw [hs] at h; simp at h
    | ok v =>
      rw [hs] at h
      cases v with
      | inl r =>
        obtain ⟨n', e'⟩ := r
        simp only [Option.some.injEq, Except.ok.injEq, Prod.mk.injEq] at h
        obtain ⟨h1, h2⟩ := h
        subst h1
        have hb := parseStep_inl hs
        omega
      | inr s =>
        obtain ⟨pos2, labels2⟩ := s
        have hb := parseStep_inr hs
        exact ih buf pos2 labels2 n e (by omega) h

/-- C4 (counterexample): a buffer of 32 consecutive one-byte labels
parses successfully to a name with **31** labels, not at most 30: the
Rust check `labels.len() > 30` runs after the 31st push, so the 31st
label is kept. -/
theorem C4_label_cap_counterexample :
    (Name.tryParse ((List.replicate 32 [1, 97]).flatten ++ [0]) 0).map
        (fun r => r.1.labels.length) = .ok 31 := by
  decide

/-- C4 (amended): a successful `Name::try_parse` returns at most **31**
labels — parsing aborts, treating the name as complete, once the label
count exceeds 30 (i.e. after the 31st label), regardless of further
buffer content. -/
theorem C4_label_cap (buf : List Nat) (pos : Nat) (n : Name) (e : Nat)
    (h : Name.tryParse buf pos = .ok (n, e)) : n.labels.length ≤ 31 := by
  have hl := tryParse_loop buf pos
  rw [h] at hl
  exact parseLoopF_labels_le (buf.length - pos + 1) buf pos [] n e (by simp) hl

/-- C4 witness: the 31-label result of the counterexample buffer meets the
amended bound. -/
theorem C4_label_cap_witness :
    Name.tryParse ((List.replicate 32 [1, 97]).flatten ++ [0]) 0 =
        .ok (⟨List.replicate 31 ⟨[1, 97]⟩⟩, 62) ∧
      (Name.mk (List.replicate 31 ⟨[1, 97]⟩)).labels.length ≤ 31 :=
  ⟨by decide,
    C4_label_cap ((List.replicate 32 [1, 97]).flatten ++ [0]) 0
      ⟨List.replicate 31 ⟨[1, 97]⟩⟩ 62 (by decide)⟩

/-- Type codes 256 and above fall through every arm of the Rust `match`. -/
theorem typeTryFrom_big (v : Nat) (h : 256 ≤ v) :
    DnsType.tryFrom v = .error .InvalidType := by
  unfold DnsType.tryFrom
  repeat rw [if_neg (by omega)]

set_option maxRecDepth 4000 in
/-- Below 256, `Type::try_from` fails exactly off `{1..16, 252..255}`. -/
theorem typeTryFrom_small : ∀ v : Fin 256,
    DnsType.tryFrom v.val = .error .InvalidType ↔
      ¬((1 ≤ v.val ∧ v.val ≤ 16) ∨ (252 ≤ v.val ∧ v.val ≤ 255)) := by
  decide

set_option maxRecDepth 4000 in
/-- Below 256, `Type::try_from` succeeds on `{1..16, 252..255}`. -/
theorem typeTryFrom_ok_small : ∀ v : Fin 256,
    ((1 ≤ v.val ∧ v.val ≤ 16) ∨ (252 ≤ v.val ∧ v.val ≤ 255)) →
      ∃ t, DnsType.tryFrom v.val = .ok t := by
  decide

/-- `Type::try_from` returns `InvalidType` exactly off the closed set. -/
theorem typeTryFrom_error_iff (v : Nat) :
    DnsType.tryFrom v = .error .InvalidType ↔
      ¬((1 ≤ v ∧ v ≤ 16) ∨ (252 ≤ v ∧ v ≤ 255)) := by
  by_cases h : v < 256
  · exact typeTryFrom_small ⟨v, h⟩
  · rw [typeTryFrom_big v (by omega)]
    have hm : ¬((1 ≤ v ∧ v ≤ 16) ∨ (252 ≤ v ∧ v ≤ 255)) := by omega
    simp [hm]

/-- `Type::try_from` succeeds exactly on the closed set. -/
theorem typeTryFrom_ok_of (v : Nat)
    (h : (1 ≤ v ∧ v ≤ 16) ∨ (252 ≤ v ∧ v ≤ 255)) :
    ∃ t, DnsType.tryFrom v = .ok t :=
  typeTryFrom_ok_small ⟨v, by omega⟩ h

/-- Class codes 256 and above fall through every arm. -/
theorem classTryFrom_big (v : Nat) (h : 256 ≤ v) :
    DnsClass.tryFrom v = .error .InvalidClass := by
  unfold DnsClass.tryFrom
  repeat rw [if_neg (by omega)]

set_option maxRecDepth 4000 in
/-- Below 256, `Class::try_from` fails exactly off `{1, 2, 3, 4, 255}`. -/
theorem classTryFrom_small : ∀ v : Fin 256,
    DnsClass.tryFrom v.val = .error .InvalidClass ↔
      ¬((1 ≤ v.val ∧ v.val ≤ 4) ∨ v.val = 255) := by
  decide

set_option maxRecDepth 4000 in
/-- Below 256, `Class::try_from` succeeds on `{1, 2, 3, 4, 255}`. -/
theorem classTryFrom_ok_small : ∀ v : Fin 256,
    ((1 ≤ v.val ∧ v.val ≤ 4) ∨ v.val = 255) →
      ∃ c, DnsClass.tryFrom v.val = .ok c := by
  decide

/-- `Class::try_from` returns `InvalidClass` exactly off the closed set. -/
theorem classTryFrom_error_iff (v : Nat) :
    DnsClass.tryFrom v = .error .InvalidClass ↔
      ¬((1 ≤ v ∧ v ≤ 4) ∨ v = 255) := by
  by_cases h : v < 256
  · exact classTryFrom_small ⟨v, h⟩
  · rw [classTryFrom_big v (by omega)]
    have hm : ¬((1 ≤ v ∧ v ≤ 4) ∨ v = 255) := by omega
    simp [hm]

/-- `Class::try_from` succeeds exactly on the closed set. -/
theorem classTryFrom_ok_of (v : Nat)
    (h : (1 ≤ v ∧ v ≤ 4) ∨ v = 255) :
    ∃ c, DnsClass.tryFrom v = .ok c :=
  classTryFrom_ok_small ⟨v, by omega⟩ h

/-- C9: with the name parsed and both 16-bit codes available,
`DnsQuestion::try_parse` fails with `InvalidType` exactly when the type
code lies outside `{1..16, 252, 253, 254, 255}`, and — the type being
valid — fails with `InvalidClass` exactly when the class code lies
outside `{1, 2, 3, 4, 255}`. -/
theorem C9_question_invalid_codes
    (buf : List Nat) (pos : Nat) (name : Name) (pos1 tv pos2 cv pos3 : Nat)
    (hn : Name.tryParse buf pos = .ok (name, pos1))
    (ht : getU16 buf pos1 = .ok (tv, pos2))
    (hc : getU16 buf pos2 = .ok (cv, pos3)) :
    (DnsQuestion.tryParse buf pos = .error .InvalidType ↔
      ¬((1 ≤ tv ∧ tv ≤ 16) ∨ (252 ≤ tv ∧ tv ≤ 255))) ∧
    (((1 ≤ tv ∧ tv ≤ 16) ∨ (252 ≤ tv ∧ tv ≤ 255)) →
      (DnsQuestion.tryParse buf pos = .error .InvalidClass ↔
        ¬((1 ≤ cv ∧ cv ≤ 4) ∨ cv = 255))) := by
  unfold DnsQuestion.tryParse
  simp only [hn, ht]
  by_cases hm : (1 ≤ tv ∧ tv ≤ 16) ∨ (252 ≤ tv ∧ tv ≤ 255)
  · obtain ⟨t, htv⟩ := typeTryFrom_ok_of tv hm
    simp only [htv, hc]
    by_cases hcm : (1 ≤ cv ∧ cv ≤ 4) ∨ cv = 255
    · obtain ⟨c, hcv⟩ := classTryFrom_ok_of cv hcm
      simp only [hcv]
      refine ⟨by simp [hm], fun _ => ?_⟩
      simp [hcm]
    · simp only [(classTryFrom_error_iff cv).mpr hcm]
      refine ⟨by simp [hm], fun _ => ?_⟩
      simp [hcm]
  · simp only [(typeTryFrom_error_iff tv).mpr hm]
    refine ⟨by simp [hm], fun hmm => absurd hmm hm⟩

/-- C9 witness: a five-byte question (root name, type 1 = A, class 1 = IN)
instantiates the iff pair; both sides of each iff are false. -/
theorem C9_question_invalid_codes_witness :
    (DnsQuestion.tryParse [0, 0, 1, 0, 1] 0 = .error .InvalidType ↔
      ¬((1 ≤ 1 ∧ 1 ≤ 16) ∨ (252 ≤ 1 ∧ 1 ≤ 255))) ∧
    (((1 ≤ 1 ∧ 1 ≤ 16) ∨ (252 ≤ 1 ∧ 1 ≤ 255)) →
      (DnsQuestion.tryParse [0, 0, 1, 0, 1] 0 = .error .InvalidClass ↔
        ¬((1 ≤ 1 ∧ 1 ≤ 4) ∨ 1 = 255))) :=
  C9_question_invalid_codes [0, 0, 1, 0, 1] 0 ⟨[]⟩ 1 1 3 1 5
    (by decide) (by decide) (by decide)

/-- A successful `parseCount` returns exactly the requested number of
entries; any shortfall propagates the element parser's error instead. -/
theorem parseCount_length {α : Type}
    (p : List Nat → Nat → Except DnsError (α × Nat)) (buf : List Nat) :
    ∀ (n pos : Nat) (xs : List α) (e : Nat),
      parseCount p buf n pos = .ok (xs, e) → xs.length = n := by
  intro n
  induction n with
  | zero =>
    intro pos xs e h
    simp only [parseCount, Except.ok.injEq, Prod.mk.injEq] at h
    rw [← h.1]
    rfl
  | succ m ih =>
    intro pos xs e h
    simp only [parseCount] at h
    cases hp : p buf pos with
    | error er => simp [hp] at h
    | ok v =>
      obtain ⟨x, pos1⟩ := v
      simp only [hp] at h
      cases hr : parseCount p buf m pos1 with
      | error er => simp [hr] at h
      | ok w =>
        obtain ⟨ys, pos2⟩ := w
        simp only [hr, Except.ok.injEq, Prod.mk.injEq] at h
        rw [← h.1]
        simp [ih pos1 ys pos2 hr]

/-- C8: a successful `DnsMessage::try_parse` returns exactly
`header.question_count` questions and exactly `header.answer_record_count`
resource records; a shortfall in either section fails the whole parse with
the element codec's error, never a shorter `Message`. -/
theorem C8_message_counts (buf : List Nat) (pos : Nat) (m : DnsMessage) (e : Nat)
    (h : DnsMessage.tryParse buf pos = .ok (m, e)) :
    m.questions.length = m.header.question_count ∧
      m.records.length = m.header.answer_record_count := by
  unfold DnsMessage.tryParse at h
  cases hh : DnsHeader.tryParse buf pos with
  | error er => simp [hh] at h
  | ok v =>
    obtain ⟨header, pos1⟩ := v
    simp only [hh] at h
    cases hq : parseCount DnsQuestion.tryParse buf header.question_count pos1 with
    | error er => simp [hq] at h
    | ok w =>
      obtain ⟨questions, pos2⟩ := w
      simp only [hq] at h
      cases hr : parseCount ResourceRecord.tryParse buf header.answer_record_count pos2 with
      | error er => simp [hr] at h
      | ok u =>
        obtain ⟨records, pos3⟩ := u
        simp only [hr, Except.ok.injEq, Prod.mk.injEq] at h
        rw [← h.1]
        exact ⟨parseCount_length DnsQuestion.tryParse buf header.question_count pos1
            questions pos2 hq,
          parseCount_length ResourceRecord.tryParse buf header.answer_record_count pos2
            records pos3 hr⟩

/-- C8 witness: a 17-byte message with `qdcount = 1`, `ancount = 0` parses
to one question and zero records, matching its header counts. -/
theorem C8_message_counts_witness :
    DnsMessage.tryParse
        [0, 1, 0, 0, 0, 1, 0, 0, 0, 0, 0, 0, 0, 0, 1, 0, 1] 0 =
      .ok (⟨⟨1, false, .StandardQuery, false, false, false, false, 0, 0, 1, 0, 0, 0⟩,
        [⟨⟨[]⟩, .A, .IN⟩], []⟩, 17) ∧
    ([⟨⟨[]⟩, .A, .IN⟩] : List DnsQuestion).length = 1 ∧
    ([] : List ResourceRecord).length = 0 :=
  ⟨by decide,
    C8_message_counts [0, 1, 0, 0, 0, 1, 0, 0, 0, 0, 0, 0, 0, 0, 1, 0, 1] 0
      ⟨⟨1, false, .StandardQuery, false, false, false, false, 0, 0, 1, 0, 0, 0⟩,
        [⟨⟨[]⟩, .A, .IN⟩], []⟩ 17 (by decide)⟩

/-- Indexing `List.range xs.length` through `getD` is just mapping. -/
theorem range_map_getD {α β : Type} (xs : List α) (d : α) (f : α → β) :
    (List.range xs.length).map (fun i => f (xs.getD i d)) = xs.map f := by
  apply List.ext_getElem (by simp)
  intro i h1 h2
  simp only [List.getElem_map, List.getElem_range]
  rw [List.getD_eq_getElem xs d (by simpa using h2)]

/-- C5: in stub-answer mode (`resolver = None`), for a parsed message
(question list length matches the header count), handling produces a reply
whose records are exactly one synthesized record per question — same name,
type `A`, class `IN`, TTL 60, address `8.8.8.8` — and whose header has the
reply bit set, AA/TC/RA and reserved cleared, response code 0 for
`StandardQuery` and 4 otherwise, and answer count equal to the number of
synthesized records. Handling itself always succeeds: `handleStub` is a
total function. -/
theorem C5_stub_response (m : DnsMessage)
    (hlen : m.questions.length = m.header.question_count) :
    (handleStub m).header.qr_indicator = true ∧
    (handleStub m).header.authoritative_answer = false ∧
    (handleStub m).header.truncation = false ∧
    (handleStub m).header.recursion_available = false ∧
    (handleStub m).header.reserved = 0 ∧
    (handleStub m).header.response_code =
      (if m.header.opcode = .StandardQuery then 0 else 4) ∧
    (handleStub m).records =
      m.questions.map (fun q => ⟨q.name, .A, .IN, 60, ⟨134744072⟩⟩) ∧
    (handleStub m).header.answer_record_count = (handleStub m).records.length := by
  refine ⟨rfl, rfl, rfl, rfl, rfl, rfl, ?_, ?_⟩
  · have h := range_map_getD m.questions (⟨⟨[]⟩, .A, .IN⟩ : DnsQuestion)
      (fun q => (⟨q.name, .A, .IN, 60, ⟨134744072⟩⟩ : ResourceRecord))
    rw [hlen] at h
    exact h
  · simp [handleStub]

/-- C5 witness: scenario D — one question for `example.com`, type A,
class IN, yields one `A 8.8.8.8` record with TTL 60 and answer count 1. -/
theorem C5_stub_response_witness :
    (handleStub ⟨⟨5, false, .StandardQuery, false, false, true, false, 0, 0, 1, 0, 0, 0⟩,
        [⟨⟨[⟨[7, 101, 120, 97, 109, 112, 108, 101]⟩, ⟨[3, 99, 111, 109]⟩]⟩, .A, .IN⟩],
        []⟩).header.qr_indicator = true ∧
    (handleStub ⟨⟨5, false, .StandardQuery, false, false, true, false, 0, 0, 1, 0, 0, 0⟩,
        [⟨⟨[⟨[7, 101, 120, 97, 109, 112, 108, 101]⟩, ⟨[3, 99, 111, 109]⟩]⟩, .A, .IN⟩],
        []⟩).records =
      [⟨⟨[⟨[7, 101, 120, 97, 109, 112, 108, 101]⟩, ⟨[3, 99, 111, 109]⟩]⟩, .A, .IN, 60,
        ⟨134744072⟩⟩] := by
  have h := C5_stub_response
    ⟨⟨5, false, .StandardQuery, false, false, true, false, 0, 0, 1, 0, 0, 0⟩,
      [⟨⟨[⟨[7, 101, 120, 97, 109, 112, 108, 101]⟩, ⟨[3, 99, 111, 109]⟩]⟩, .A, .IN⟩],
      []⟩ (by decide)
  exact ⟨h.1, h.2.2.2.2.2.2.1⟩

/-- Any sub-query failure (I/O failure or undecodable reply) anywhere in
the index list makes the forwarding loop abort with `none`. -/
theorem forwardAnswers_none (net : Nat → NetResult) :
    ∀ (is : List Nat),
      (∃ i ∈ is, net i = .fail ∨
        ∃ b er, net i = .reply b ∧ DnsMessage.tryParse b 0 = .error er) →
      forwardAnswers net is = none := by
  intro is
  induction is with
  | nil => intro h; simp at h
  | cons i rest ih =>
    intro h
    obtain ⟨j, hj, hfail⟩ := h
    rcases List.mem_cons.mp hj with hj1 | hj2
    · subst hj1
      rcases hfail with hf | ⟨b, er, hb, he⟩
      · simp [forwardAnswers, hf]
      · simp [forwardAnswers, hb, he]
    · unfold forwardAnswers
      cases hn : net i with
      | fail => simp
      | reply bytes =>
        simp only
        cases hp : DnsMessage.tryParse bytes 0 with
        | error er => simp
        | ok v =>
          obtain ⟨reply, rest2⟩ := v
          simp only [hp]
          rw [ih ⟨j, hj2, hfail⟩]

/-- C6: in forwarding mode, if the upstream round-trip or the reply decode
of any sub-query fails, no reply datagram — partial or otherwise — is sent
to the original client: `handle_forward_query` returns the error to its
caller (which logs it and drops the datagram) without reaching the final
`send_to`. -/
theorem C6_forward_abort (m : DnsMessage) (net : Nat → NetResult)
    (h : ∃ i ∈ List.range m.header.question_count,
      net i = .fail ∨
        ∃ b er, net i = .reply b ∧ DnsMessage.tryParse b 0 = .error er) :
    handleForwardQuery m net = none := by
  unfold handleForwardQuery
  rw [forwardAnswers_none net (List.range m.header.question_count) h]

/-- C6 witness: a one-question message whose single upstream round-trip
fails produces no client datagram. -/
theorem C6_forward_abort_witness :
    handleForwardQuery
        ⟨⟨5, false, .StandardQuery, false, false, true, false, 0, 0, 1, 0, 0, 0⟩,
          [⟨⟨[]⟩, .A, .IN⟩], []⟩ (fun _ => .fail) = none :=
  C6_forward_abort
    ⟨⟨5, false, .StandardQuery, false, false, true, false, 0, 0, 1, 0, 0, 0⟩,
      [⟨⟨[]⟩, .A, .IN⟩], []⟩ (fun _ => .fail)
    ⟨0, by decide, Or.inl rfl⟩

/-- The first zero of `xs ++ 0 :: rest` sits right after `xs` when `xs`
itself contains no zero. -/
theorem position0_append (xs rest : List Nat) (hz : 0 ∉ xs) :
    position0 (xs ++ 0 :: rest) = some xs.length := by
  induction xs with
  | nil => simp [position0]
  | cons x t ih =>
    simp only [List.cons_append, position0, List.append_eq]
    rw [if_neg (by simp at hz; omega)]
    rw [ih (by simp at hz; exact hz.2)]
    simp

/-- Dropping one more byte past a known head. -/
theorem drop_cons {buf : List Nat} {pos : Nat} {x : Nat} {t : List Nat}
    (h : buf.drop pos = x :: t) : buf.drop (pos + 1) = t := by
  rw [← List.drop_drop]
  rw [h]
  rfl

/-- The byte at `pos` is the head of `buf.drop pos`. -/
theorem get_of_drop {buf : List Nat} {pos : Nat} {x : Nat} {t : List Nat}
    (h : buf.drop pos = x :: t) (hl : pos < buf.length) :
    buf.get ⟨pos, hl⟩ = x := by
  have h2 : (buf.drop pos).head? = some x := by rw [h]; rfl
  rw [List.head?_drop] at h2
  simp only [List.getElem?_eq_getElem hl] at h2
  simpa using h2

/-- Running the `Name::try_parse` loop over the serialized form of a list
of well-formed labels (with any trailing bytes) recovers exactly those
labels appended to the accumulator, as long as the total stays within the
31-label cut-off. -/
theorem parseLoop_serialized :
    ∀ (ls acc : List Label) (buf rest : List Nat) (pos fuel : Nat),
      (∀ l ∈ ls, wfLabel l = true) →
      acc.length + ls.length ≤ 31 →
      buf.drop pos = (ls.map Label.sect).flatten ++ [0] ++ rest →
      buf.length - pos < fuel →
      ∃ e, Name.parseLoopF fuel buf pos acc = some (.ok (⟨acc ++ ls⟩, e)) := by
  intro ls
  induction ls with
  | nil =>
    intro acc buf rest pos fuel hwf hcount hdrop hfuel
    have hdrop0 : buf.drop pos = 0 :: rest := by simpa using hdrop
    have hlen := congrArg List.length hdrop0
    simp only [List.length_drop, List.length_cons] at hlen
    have hpos : pos < buf.length := by omega
    cases fuel with
    | zero => omega
    | succ f =>
      have hget : buf.get ⟨pos, hpos⟩ = 0 := get_of_drop hdrop0 hpos
      have hstep : parseStep buf pos acc = .ok (.inl (⟨acc⟩, pos + 1)) := by
        simp only [parseStep]
        rw [dif_pos hpos, hget]
        simp
      refine ⟨pos + 1, ?_⟩
      simp only [Name.parseLoopF, hstep]
      simp
  | cons l ls2 ih =>
    intro acc buf rest pos fuel hwf hcount hdrop hfuel
    have hwfl := hwf l (by simp)
    cases hsect : l.sect with
    | nil => rw [wfLabel, hsect] at hwfl; simp at hwfl
    | cons len data =>
      rw [wfLabel, hsect] at hwfl
      simp only [Bool.and_eq_true, beq_iff_eq, bne_iff_ne, ne_eq, decide_eq_true_eq] at hwfl
      obtain ⟨⟨hdata, hlen0⟩, hnotptr⟩ := hwfl
      simp only [List.map_cons, List.flatten_cons, hsect] at hdrop
      have hdropc : buf.drop pos =
          len :: (data ++ ((ls2.map Label.sect).flatten ++ [0] ++ rest)) := by
        rw [hdrop]; simp
      have hlen := congrArg List.length hdropc
      simp only [List.length_drop, List.length_cons, List.length_append] at hlen
      have hpos : pos < buf.length := by omega
      have hget : buf.get ⟨pos, hpos⟩ = len := get_of_drop hdropc hpos
      have htail : buf.drop (pos + 1) =
          data ++ ((ls2.map Label.sect).flatten ++ [0] ++ rest) := drop_cons hdropc
      have hsec : (buf.drop pos).take (len + 1) = l.sect := by
        rw [hdropc, List.take_succ_cons, hsect]
        congr 1
        rw [← hdata, List.take_left]
      have hrem : ¬ remaining buf (pos + 1) < len := by
        simp only [remaining]
        omega
      cases fuel with
      | zero => omega
      | succ f =>
        by_cases hcut : (acc ++ [l]).length > 30
        · have hls2 : ls2 = [] := by
            cases ls2 with
            | nil => rfl
            | cons a b =>
              exfalso
              simp only [List.length_append, List.length_cons, List.length_nil] at hcut hcount
              omega
          have hstep : parseStep buf pos acc =
              .ok (.inl (⟨acc ++ [l]⟩, pos + 1 + len)) := by
            simp only [parseStep]
            rw [dif_pos hpos, hget]
            rw [if_neg hlen0, if_neg hnotptr, if_neg hrem, hsec]
            rw [show (Label.mk l.sect) = l from rfl]
            rw [if_pos hcut]
          refine ⟨pos + 1 + len, ?_⟩
          simp only [Name.parseLoopF, hstep]
          rw [hls2]
        · have hstep : parseStep buf pos acc =
              .ok (.inr (pos + 1 + len, acc ++ [l])) := by
            simp only [parseStep]
            rw [dif_pos hpos, hget]
            rw [if_neg hlen0, if_neg hnotptr, if_neg hrem, hsec]
            rw [show (Label.mk l.sect) = l from rfl]
            rw [if_neg hcut]
          have hdrop2 : buf.drop (pos + 1 + len) =
              (ls2.map Label.sect).flatten ++ [0] ++ rest := by
            have hd : buf.drop (pos + 1 + len) = (buf.drop (pos + 1)).drop len := by
              rw [List.drop_drop]
            rw [hd, htail, ← hdata, List.drop_left]
          obtain ⟨e, he⟩ := ih (acc ++ [l]) buf rest (pos + 1 + len) f
            (fun x hx => hwf x (by simp [hx]))
            (by simp only [List.length_append, List.length_cons, List.length_nil] at *; omega)
            hdrop2
            (by omega)
          refine ⟨e, ?_⟩
          simp only [Name.parseLoopF, hstep]
          rw [he]
          simp [List.append_assoc]

/-- `Name::try_parse` at a position where the buffer holds the serialized
form of a well-formed name (with anything after it) returns that name. -/
theorem tryParse_serialized (buf rest : List Nat) (pos : Nat) (n : Name)
    (hwf : ∀ l ∈ n.labels, wfLabel l = true) (hcount : n.labels.length ≤ 31)
    (hdrop : buf.drop pos = Name.serialize n ++ rest) :
    ∃ e, Name.tryParse buf pos = .ok (n, e) := by
  obtain ⟨e, he⟩ := parseLoop_serialized n.labels [] buf rest pos
    (buf.length - pos + 1) hwf (by simp only [List.length_nil]; omega)
    (by rw [hdrop]; simp [Name.serialize]) (by omega)
  refine ⟨e, ?_⟩
  unfold Name.tryParse
  rw [he]
  rfl

/-- C7 (counterexample): a name of 32 well-formed one-byte labels does not
survive the round-trip: its serialization parses back to only 31 labels
because of the label cut-off. -/
theorem C7_roundtrip_counterexample :
    (Name.tryParse (Name.serialize ⟨List.replicate 32 ⟨[1, 97]⟩⟩) 0).map Prod.fst =
        .ok (⟨List.replicate 31 ⟨[1, 97]⟩⟩ : Name) ∧
      (⟨List.replicate 31 ⟨[1, 97]⟩⟩ : Name) ≠ ⟨List.replicate 32 ⟨[1, 97]⟩⟩ := by
  decide

/-- C7 (amended): a name whose labels are all well-formed uncompressed
labels (a length byte `1..=191` that is not a compression tag, followed by
exactly that many bytes) and which has at most **31** labels round-trips:
`Name::try_parse` on `Name::serialize`'s output succeeds and returns the
same name. (Beyond 31 labels the cut-off truncates the result, see the
counterexample.) -/
theorem C7_name_roundtrip (n : Name)
    (hwf : ∀ l ∈ n.labels, wfLabel l = true)
    (hcount : n.labels.length ≤ 31) :
    ∃ e, Name.tryParse (Name.serialize n) 0 = .ok (n, e) :=
  tryParse_serialized (Name.serialize n) [] 0 n hwf hcount (by simp)

/-- C7 witness: scenario B — the two-label name `codecrafters.io` encodes
to `0x0C "codecrafters" 0x02 "io" 0x00` and decodes back to itself. -/
theorem C7_name_roundtrip_witness :
    Name.serialize
        ⟨[⟨[12, 99, 111, 100, 101, 99, 114, 97, 102, 116, 101, 114, 115]⟩,
          ⟨[2, 105, 111]⟩]⟩ =
      [12, 99, 111, 100, 101, 99, 114, 97, 102, 116, 101, 114, 115, 2, 105, 111, 0] ∧
    ∃ e, Name.tryParse
        (Name.serialize
          ⟨[⟨[12, 99, 111, 100, 101, 99, 114, 97, 102, 116, 101, 114, 115]⟩,
            ⟨[2, 105, 111]⟩]⟩) 0 =
      .ok (⟨[⟨[12, 99, 111, 100, 101, 99, 114, 97, 102, 116, 101, 114, 115]⟩,
        ⟨[2, 105, 111]⟩]⟩, e) :=
  ⟨by decide,
    C7_name_roundtrip
      ⟨[⟨[12, 99, 111, 100, 101, 99, 114, 97, 102, 116, 101, 114, 115]⟩,
        ⟨[2, 105, 111]⟩]⟩ (by decide) (by decide)⟩

/-- A name that starts with a compression pointer parses to one single
merged label: the whole pointed-to byte run up to (excluding) the first
zero byte found from the offset. -/
theorem pointer_parse (buf : List Nat) (pt c b2 z : Nat)
    (hc : buf[pt]? = some c)
    (hptr : c &&& 192 = 192)
    (hb2 : buf[pt + 1]? = some b2)
    (hz : position0 (buf.drop ((c &&& 63) * 256 + b2)) = some z)
    (hoff : (c &&& 63) * 256 + b2 < buf.length) :
    Name.tryParse buf pt =
      .ok (⟨[⟨(buf.drop ((c &&& 63) * 256 + b2)).take z⟩]⟩, pt + 2) := by
  obtain ⟨hpt, hgc⟩ := List.getElem?_eq_some.mp hc
  obtain ⟨hpt1, hgb⟩ := List.getElem?_eq_some.mp hb2
  have hgetc : buf.get ⟨pt, hpt⟩ = c := by simpa using hgc
  have hgetb : buf.get ⟨pt + 1, hpt1⟩ = b2 := by simpa using hgb
  have hc0 : ¬ c = 0 := by
    intro h
    rw [h] at hptr
    simp at hptr
  have ho : ¬ ((c &&& 63) * 256 + b2 ≥ buf.length) := by omega
  have hstep : parseStep buf pt [] =
      .ok (.inl (⟨[⟨(buf.drop ((c &&& 63) * 256 + b2)).take z⟩]⟩, pt + 2)) := by
    simp only [parseStep, getU8]
    rw [dif_pos hpt, hgetc]
    rw [if_neg hc0, if_pos hptr]
    rw [dif_pos hpt1, hgetb]
    simp only [ho, if_false, hz]
    simp
  unfold Name.tryParse
  have hfuel : buf.length - pt + 1 = (buf.length - pt) + 1 := rfl
  rw [hfuel]
  simp only [Name.parseLoopF, hstep]
  rfl

/-- C1 (counterexample): scenario C — in a buffer holding the uncompressed
`codecrafters.io` at offset 0 and, at offset 17, a name that is a bare
pointer to offset 0, the pointer name decodes to ONE label holding the
whole 16-byte run `0x0C codecrafters 0x02 io`, while the uncompressed
name decodes to the two labels; the two `Name` values are not equal, so
the decoded label sequences differ. (Their re-serializations do agree.) -/
theorem C1_pointer_label_counterexample :
    Name.tryParse
        [12, 99, 111, 100, 101, 99, 114, 97, 102, 116, 101, 114, 115, 2, 105, 111, 0,
          192, 0] 0 =
      .ok (⟨[⟨[12, 99, 111, 100, 101, 99, 114, 97, 102, 116, 101, 114, 115]⟩,
        ⟨[2, 105, 111]⟩]⟩, 17) ∧
    Name.tryParse
        [12, 99, 111, 100, 101, 99, 114, 97, 102, 116, 101, 114, 115, 2, 105, 111, 0,
          192, 0] 17 =
      .ok (⟨[⟨[12, 99, 111, 100, 101, 99, 114, 97, 102, 116, 101, 114, 115, 2, 105,
        111]⟩]⟩, 19) ∧
    (⟨[⟨[12, 99, 111, 100, 101, 99, 114, 97, 102, 116, 101, 114, 115, 2, 105, 111]⟩]⟩ :
        Name) ≠
      ⟨[⟨[12, 99, 111, 100, 101, 99, 114, 97, 102, 116, 101, 114, 115]⟩,
        ⟨[2, 105, 111]⟩]⟩ ∧
    Name.serialize
        ⟨[⟨[12, 99, 111, 100, 101, 99, 114, 97, 102, 116, 101, 114, 115, 2, 105,
          111]⟩]⟩ =
      Name.serialize
        ⟨[⟨[12, 99, 111, 100, 101, 99, 114, 97, 102, 116, 101, 114, 115]⟩,
          ⟨[2, 105, 111]⟩]⟩ := by
  refine ⟨by decide, by decide, by decide, by decide⟩

/-- C1 (amended): a name that is a compression pointer into a buffer that
holds, at the pointed-to offset, the uncompressed encoding of a
well-formed name `n` (no zero bytes inside its label sections) decodes to
a `Name` with a SINGLE label containing the entire pointed-to run; this is
not label-sequence-equal to the decode of `n`'s own encoding (which yields
`n`'s labels) unless `n` has one label, but both decodes re-serialize to
the same bytes. -/
theorem C1_pointer_single_label (buf rest : List Nat) (pt c b2 : Nat) (n : Name)
    (hc : buf[pt]? = some c)
    (hptr : c &&& 192 = 192)
    (hb2 : buf[pt + 1]? = some b2)
    (hdrop : buf.drop ((c &&& 63) * 256 + b2) = Name.serialize n ++ rest)
    (hwf : ∀ l ∈ n.labels, wfLabel l = true)
    (hcount : n.labels.length ≤ 31)
    (hz0 : 0 ∉ (n.labels.map Label.sect).flatten) :
    Name.tryParse buf pt =
      .ok (⟨[⟨(n.labels.map Label.sect).flatten⟩]⟩, pt + 2) ∧
    (∃ e, Name.tryParse buf ((c &&& 63) * 256 + b2) = .ok (n, e)) ∧
    Name.serialize ⟨[⟨(n.labels.map Label.sect).flatten⟩]⟩ = Name.serialize n := by
  have hform : Name.serialize n ++ rest =
      (n.labels.map Label.sect).flatten ++ (0 :: rest) := by
    simp [Name.serialize]
  have hzp : position0 (buf.drop ((c &&& 63) * 256 + b2)) =
      some (n.labels.map Label.sect).flatten.length := by
    rw [hdrop, hform]
    exact position0_append _ _ hz0
  have hoff : (c &&& 63) * 256 + b2 < buf.length := by
    have hl := congrArg List.length hdrop
    simp only [List.length_drop, List.length_append, Name.serialize] at hl
    simp only [List.length_append, List.length_cons] at hl
    omega
  have htake : (buf.drop ((c &&& 63) * 256 + b2)).take
      (n.labels.map Label.sect).flatten.length =
      (n.labels.map Label.sect).flatten := by
    rw [hdrop, hform, List.take_left]
  refine ⟨?_, ?_, ?_⟩
  · have hp := pointer_parse buf pt c b2 _ hc hptr hb2 hzp hoff
    rw [htake] at hp
    exact hp
  · exact tryParse_serialized buf rest _ n hwf hcount hdrop
  · simp [Name.serialize]

/-- C1 witness: the amended statement at the scenario-C buffer — the
pointer at offset 17 to offset 0 yields the single merged label, the
target decodes to the two-label name, and the serializations agree. -/
theorem C1_pointer_single_label_witness :
    Name.tryParse
        [12, 99, 111, 100, 101, 99, 114, 97, 102, 116, 101, 114, 115, 2, 105, 111, 0,
          192, 0] 17 =
      .ok (⟨[⟨([⟨[12, 99, 111, 100, 101, 99, 114, 97, 102, 116, 101, 114, 115]⟩,
          (⟨[2, 105, 111]⟩ : Label)].map Label.sect).flatten⟩]⟩, 17 + 2) ∧
    (∃ e, Name.tryParse
        [12, 99, 111, 100, 101, 99, 114, 97, 102, 116, 101, 114, 115, 2, 105, 111, 0,
          192, 0] ((192 &&& 63) * 256 + 0) =
      .ok (⟨[⟨[12, 99, 111, 100, 101, 99, 114, 97, 102, 116, 101, 114, 115]⟩,
        ⟨[2, 105, 111]⟩]⟩, e)) ∧
    Name.serialize
        ⟨[⟨([⟨[12, 99, 111, 100, 101, 99, 114, 97, 102, 116, 101, 114, 115]⟩,
          (⟨[2, 105, 111]⟩ : Label)].map Label.sect).flatten⟩]⟩ =
      Name.serialize
        ⟨[⟨[12, 99, 111, 100, 101, 99, 114, 97, 102, 116, 101, 114, 115]⟩,
          ⟨[2, 105, 111]⟩]⟩ :=
  C1_pointer_single_label
    [12, 99, 111, 100, 101, 99, 114, 97, 102, 116, 101, 114, 115, 2, 105, 111, 0,
      192, 0] [192, 0] 17 192 0
    ⟨[⟨[12, 99, 111, 100, 101, 99, 114, 97, 102, 116, 101, 114, 115]⟩,
      ⟨[2, 105, 111]⟩]⟩
    (by decide) (by decide) (by decide) (by decide) (by decide) (by decide) (by decide)



/-- Bytes of a prefix agree with bytes of the full buffer. -/
theorem take_get_eq {b : List Nat} {k i : Nat} (hi : i < (b.take k).length)
    (hi2 : i < b.length) : (b.take k).get ⟨i, hi⟩ = b.get ⟨i, hi2⟩ := by
  simp [List.get_eq_getElem, List.getElem_take]

/-- The prefix length bound as arithmetic. -/
theorem take_length_le (b : List Nat) (k : Nat) : (b.take k).length ≤ b.length := by
  simp [List.length_take]

theorem getU8_mono {b : List Nat} {k pos x e : Nat}
    (h : getU8 (b.take k) pos = .ok (x, e)) : getU8 b pos = .ok (x, e) := by
  unfold getU8 at *
  split at h
  · next hlt =>
    have hlt2 : pos < b.length := by
      have := take_length_le b k
      omega
    rw [dif_pos hlt2]
    simp only [Except.ok.injEq, Prod.mk.injEq] at h ⊢
    refine ⟨?_, h.2⟩
    rw [← h.1]
    simp only [List.get_eq_getElem, List.getElem_take]
  · exact absurd h (by simp)

theorem getU16_mono {b : List Nat} {k pos x e : Nat}
    (h : getU16 (b.take k) pos = .ok (x, e)) : getU16 b pos = .ok (x, e) := by
  unfold getU16 at *
  split at h
  · next hlt =>
    have hlt2 : pos + 1 < b.length := by
      have := take_length_le b k
      omega
    rw [dif_pos hlt2]
    simp only [Except.ok.injEq, Prod.mk.injEq] at h ⊢
    refine ⟨?_, h.2⟩
    rw [← h.1]
    simp only [List.get_eq_getElem, List.getElem_take]
  · exact absurd h (by simp)

theorem getU32_mono {b : List Nat} {k pos x e : Nat}
    (h : getU32 (b.take k) pos = .ok (x, e)) : getU32 b pos = .ok (x, e) := by
  unfold getU32 at *
  split at h
  · next hlt =>
    have hlt2 : pos + 3 < b.length := by
      have := take_length_le b k
      omega
    rw [dif_pos hlt2]
    simp only [Except.ok.injEq, Prod.mk.injEq] at h ⊢
    refine ⟨?_, h.2⟩
    rw [← h.1]
    simp only [List.get_eq_getElem, List.getElem_take]
  · exact absurd h (by simp)

theorem getU16_end_le {b : List Nat} {pos x e : Nat}
    (h : getU16 b pos = .ok (x, e)) : e ≤ b.length := by
  unfold getU16 at h
  split at h
  · simp only [Except.ok.injEq, Prod.mk.injEq] at h
    next hlt => omega
  · exact absurd h (by simp)

theorem getU32_end_le {b : List Nat} {pos x e : Nat}
    (h : getU32 b pos = .ok (x, e)) : e ≤ b.length := by
  unfold getU32 at h
  split at h
  · simp only [Except.ok.injEq, Prod.mk.injEq] at h
    next hlt => omega
  · exact absurd h (by simp)



theorem headerParse_mono {b : List Nat} {k pos : Nat} {h : DnsHeader} {e : Nat}
    (hp : DnsHeader.tryParse (b.take k) pos = .ok (h, e)) :
    DnsHeader.tryParse b pos = .ok (h, e) := by
  unfold DnsHeader.tryParse at *
  split at hp
  · exact absurd hp (by simp)
  · next hcond =>
    have hlen := take_length_le b k
    have hc2 : ¬ (b.take k).length - pos < 12 := by simpa [remaining] using hcond
    have hrem : ¬ remaining b pos < 12 := by
      simp only [remaining]
      omega
    rw [dif_neg hrem]
    simp only [Except.ok.injEq, Prod.mk.injEq] at hp ⊢
    refine ⟨?_, hp.2⟩
    rw [← hp.1]
    simp only [List.get_eq_getElem, List.getElem_take]

theorem headerParse_end_le {b : List Nat} {pos : Nat} {h : DnsHeader} {e : Nat}
    (hp : DnsHeader.tryParse b pos = .ok (h, e)) : e ≤ b.length ∧ pos ≤ b.length := by
  unfold DnsHeader.tryParse at hp
  split at hp
  · exact absurd hp (by simp)
  · next hcond =>
    simp only [Except.ok.injEq, Prod.mk.injEq] at hp
    simp only [remaining] at hcond
    omega

theorem position0_lt_length : ∀ (l : List Nat) (p : Nat),
    position0 l = some p → p < l.length := by
  intro l
  induction l with
  | nil => intro p h; simp [position0] at h
  | cons x t ih =>
    intro p h
    simp only [position0] at h
    split at h
    · simp only [Option.some.injEq] at h
      simp only [List.length_cons]
      omega
    · cases hq : position0 t with
      | none => rw [hq] at h; simp at h
      | some q =>
        rw [hq] at h
        simp only [Option.map_some', Option.some.injEq] at h
        have := ih q hq
        simp only [List.length_cons]
        omega

theorem position0_take : ∀ (l : List Nat) (j p : Nat),
    position0 (l.take j) = some p → position0 l = some p := by
  intro l
  induction l with
  | nil => intro j p h; simp [position0] at h
  | cons x t ih =>
    intro j p h
    cases j with
    | zero => simp [position0] at h
    | succ j2 =>
      simp only [List.take_succ_cons, position0] at h ⊢
      by_cases hx : x = 0
      · rw [if_pos hx] at h ⊢
        exact h
      · rw [if_neg hx] at h ⊢
        cases hq : position0 (t.take j2) with
        | none => rw [hq] at h; simp at h
        | some q =>
          rw [hq] at h
          rw [ih j2 q hq]
          exact h



/-- A successful `parseStep` on a prefix succeeds identically on the full
buffer: every branch reads only bytes inside the prefix. -/
theorem parseStep_mono {b : List Nat} {k pos : Nat} {labels : List Label}
    {r : (Name × Nat) ⊕ (Nat × List Label)}
    (h : parseStep (b.take k) pos labels = .ok r) :
    parseStep b pos labels = .ok r := by
  unfold parseStep at *
  split at h
  case isFalse => exact absurd h (by simp)
  case isTrue hlt =>
  have hlt2 : pos < b.length := by
    have := take_length_le b k
    omega
  have hbeq : (b.take k).get ⟨pos, hlt⟩ = b.get ⟨pos, hlt2⟩ := by
    simp [List.get_eq_getElem, List.getElem_take]
  rw [dif_pos hlt2]
  rw [hbeq] at h
  by_cases h0 : b.get ⟨pos, hlt2⟩ = 0
  · rw [if_pos h0] at h ⊢
    exact h
  · rw [if_neg h0] at h ⊢
    by_cases hptr : b.get ⟨pos, hlt2⟩ &&& 192 = 192
    · rw [if_pos hptr] at h ⊢
      cases hg : getU8 (b.take k) (pos + 1) with
      | error er => rw [hg] at h; simp at h
      | ok v =>
        obtain ⟨b2, pos2⟩ := v
        simp only [hg] at h
        simp only [getU8_mono hg]
        by_cases hoff : (b.get ⟨pos, hlt2⟩ &&& 63) * 256 + b2 ≥ (b.take k).length
        · rw [if_pos hoff] at h
          simp at h
        · rw [if_neg hoff] at h
          have hoff2 : ¬ ((b.get ⟨pos, hlt2⟩ &&& 63) * 256 + b2 ≥ b.length) := by
            have := take_length_le b k
            omega
          rw [if_neg hoff2]
          have hdt : (b.take k).drop ((b.get ⟨pos, hlt2⟩ &&& 63) * 256 + b2) =
              (b.drop ((b.get ⟨pos, hlt2⟩ &&& 63) * 256 + b2)).take
                (k - ((b.get ⟨pos, hlt2⟩ &&& 63) * 256 + b2)) :=
            List.drop_take k ((b.get ⟨pos, hlt2⟩ &&& 63) * 256 + b2) b
          cases hp0 : position0
              ((b.take k).drop ((b.get ⟨pos, hlt2⟩ &&& 63) * 256 + b2)) with
          | none => rw [hp0] at h; simp at h
          | some p =>
            simp only [hp0] at h
            have hp1 : position0 (b.drop ((b.get ⟨pos, hlt2⟩ &&& 63) * 256 + b2)) =
                some p := by
              apply position0_take _ (k - ((b.get ⟨pos, hlt2⟩ &&& 63) * 256 + b2))
              rw [← hdt]
              exact hp0
            simp only [hp1]
            have hplt := position0_lt_length _ _ hp0
            have hsec : ((b.take k).drop ((b.get ⟨pos, hlt2⟩ &&& 63) * 256 + b2)).take p =
                (b.drop ((b.get ⟨pos, hlt2⟩ &&& 63) * 256 + b2)).take p := by
              rw [hdt, List.take_take]
              congr 1
              simp only [List.length_drop, List.length_take] at hplt
              omega
            rw [hsec] at h
            exact h
    · rw [if_neg hptr] at h ⊢
      by_cases hrem : remaining (b.take k) (pos + 1) < b.get ⟨pos, hlt2⟩
      · rw [if_pos hrem] at h
        simp at h
      · rw [if_neg hrem] at h
        have hrem2 : ¬ remaining b (pos + 1) < b.get ⟨pos, hlt2⟩ := by
          simp only [remaining, List.length_take] at hrem ⊢
          omega
        rw [if_neg hrem2]
        have hsec : ((b.take k).drop pos).take (b.get ⟨pos, hlt2⟩ + 1) =
            (b.drop pos).take (b.get ⟨pos, hlt2⟩ + 1) := by
          rw [List.drop_take, List.take_take]
          congr 1
          simp only [remaining, List.length_take] at hrem
          omega
        rw [hsec] at h
        exact h

/-- Loop-level prefix lifting: a successful parse of a name on a prefix is
reproduced verbatim on the full buffer. -/
theorem parseLoopF_mono : ∀ (fuel : Nat) (b : List Nat) (k pos : Nat)
    (labels : List Label) (n : Name) (e : Nat),
    Name.parseLoopF fuel (b.take k) pos labels = some (.ok (n, e)) →
    Name.parseLoopF fuel b pos labels = some (.ok (n, e)) := by
  intro fuel
  induction fuel with
  | zero => intro b k pos labels n e h; simp [Name.parseLoopF] at h
  | succ f ih =>
    intro b k pos labels n e h
    simp only [Name.parseLoopF] at h ⊢
    cases hs : parseStep (b.take k) pos labels with
    | error er =>
      rw [hs] at h
      simp at h
    | ok v =>
      rw [hs] at h
      rw [parseStep_mono hs]
      cases v with
      | inl r => exact h
      | inr s =>
        obtain ⟨pos2, labels2⟩ := s
        exact ih b k pos2 labels2 n e h

/-- Completed loop runs survive any fuel increase. -/
theorem parseLoopF_some_mono : ∀ (f1 : Nat) (buf : List Nat) (pos : Nat)
    (labels : List Label) (r : Except DnsError (Name × Nat)) (f2 : Nat),
    Name.parseLoopF f1 buf pos labels = some r → f1 ≤ f2 →
    Name.parseLoopF f2 buf pos labels = some r := by
  intro f1
  induction f1 with
  | zero => intro buf pos labels r f2 h hle; simp [Name.parseLoopF] at h
  | succ f ih =>
    intro buf pos labels r f2 h hle
    cases f2 with
    | zero => omega
    | succ g =>
      simp only [Name.parseLoopF] at h ⊢
      cases hs : parseStep buf pos labels with
      | error er =>
        rw [hs] at h
        exact h
      | ok v =>
        rw [hs] at h
        cases v with
        | inl r2 => exact h
        | inr s =>
          obtain ⟨pos2, labels2⟩ := s
          exact ih buf pos2 labels2 r g h (by omega)

/-- `Name::try_parse` prefix lifting. -/
theorem nameParse_mono {b : List Nat} {k pos : Nat} {n : Name} {e : Nat}
    (h : Name.tryParse (b.take k) pos = .ok (n, e)) :
    Name.tryParse b pos = .ok (n, e) := by
  have hs := parseLoopF_isSome ((b.take k).length - pos + 1) (b.take k) pos [] (by omega)
  obtain ⟨r, hr⟩ := Option.isSome_iff_exists.mp hs
  have hval : r = .ok (n, e) := by
    unfold Name.tryParse at h
    rw [hr] at h
    simpa using h
  rw [hval] at hr
  have hb := parseLoopF_mono _ b k pos [] n e hr
  have hb2 := parseLoopF_some_mono _ b pos [] (.ok (n, e)) (b.length - pos + 1) hb
    (by have := take_length_le b k; omega)
  unfold Name.tryParse
  rw [hb2]
  rfl

/-- A successful name parse ends inside the buffer. -/
theorem parseLoopF_end_le : ∀ (fuel : Nat) (buf : List Nat) (pos : Nat)
    (labels : List Label) (n : Name) (e : Nat),
    Name.parseLoopF fuel buf pos labels = some (.ok (n, e)) → e ≤ buf.length := by
  intro fuel
  induction fuel with
  | zero => intro buf pos labels n e h; simp [Name.parseLoopF] at h
  | succ f ih =>
    intro buf pos labels n e h
    simp only [Name.parseLoopF] at h
    cases hs : parseStep buf pos labels with
    | error er => rw [hs] at h; simp at h
    | ok v =>
      rw [hs] at h
      cases v with
      | inl r =>
        obtain ⟨n2, e2⟩ := r
        simp only [Option.some.injEq, Except.ok.injEq, Prod.mk.injEq] at h
        have := parseStep_inl hs
        omega
      | inr s =>
        obtain ⟨pos2, labels2⟩ := s
        exact ih buf pos2 labels2 n e h

/-- `Name.tryParse` end-position bound. -/
theorem nameParse_end_le {buf : List Nat} {pos : Nat} {n : Name} {e : Nat}
    (h : Name.tryParse buf pos = .ok (n, e)) : e ≤ buf.length := by
  have hl := tryParse_loop buf pos
  rw [h] at hl
  exact parseLoopF_end_le _ buf pos [] n e hl



/-- `DnsQuestion::try_parse` prefix lifting. -/
theorem questionParse_mono {b : List Nat} {k pos : Nat}
    {q : DnsQuestion} {e : Nat}
    (h : DnsQuestion.tryParse (b.take k) pos = .ok (q, e)) :
    DnsQuestion.tryParse b pos = .ok (q, e) := by
  unfold DnsQuestion.tryParse at *
  cases hn : Name.tryParse (b.take k) pos with
  | error er => simp [hn] at h
  | ok v =>
    obtain ⟨name, pos1⟩ := v
    simp only [hn] at h
    simp only [nameParse_mono hn]
    cases ht : getU16 (b.take k) pos1 with
    | error er => simp [ht] at h
    | ok w =>
      obtain ⟨tv, pos2⟩ := w
      simp only [ht] at h
      simp only [getU16_mono ht]
      cases htt : DnsType.tryFrom tv with
      | error er => simp [htt] at h
      | ok qt =>
        simp only [htt] at h ⊢
        cases hc : getU16 (b.take k) pos2 with
        | error er => simp [hc] at h
        | ok u =>
          obtain ⟨cv, pos3⟩ := u
          simp only [hc] at h
          simp only [getU16_mono hc]
          cases hcc : DnsClass.tryFrom cv with
          | error er => simp [hcc] at h
          | ok qc => simp only [hcc] at h ⊢; exact h

/-- `DnsQuestion::try_parse` end-position bound. -/
theorem questionParse_end_le {b : List Nat} {pos : Nat}
    {q : DnsQuestion} {e : Nat}
    (h : DnsQuestion.tryParse b pos = .ok (q, e)) : e ≤ b.length := by
  unfold DnsQuestion.tryParse at h
  cases hn : Name.tryParse b pos with
  | error er => simp [hn] at h
  | ok v =>
    obtain ⟨name, pos1⟩ := v
    simp only [hn] at h
    cases ht : getU16 b pos1 with
    | error er => simp [ht] at h
    | ok w =>
      obtain ⟨tv, pos2⟩ := w
      simp only [ht] at h
      cases htt : DnsType.tryFrom tv with
      | error er => simp [htt] at h
      | ok qt =>
        simp only [htt] at h
        cases hc : getU16 b pos2 with
        | error er => simp [hc] at h
        | ok u =>
          obtain ⟨cv, pos3⟩ := u
          simp only [hc] at h
          cases hcc : DnsClass.tryFrom cv with
          | error er => simp [hcc] at h
          | ok qc =>
            simp only [hcc, Except.ok.injEq, Prod.mk.injEq] at h
            have := getU16_end_le hc
            omega

/-- `ResourceRecord::try_parse` prefix lifting. -/
theorem recordParse_mono {b : List Nat} {k pos : Nat}
    {r : ResourceRecord} {e : Nat}
    (h : ResourceRecord.tryParse (b.take k) pos = .ok (r, e)) :
    ResourceRecord.tryParse b pos = .ok (r, e) := by
  unfold ResourceRecord.tryParse at *
  cases hn : Name.tryParse (b.take k) pos with
  | error er => simp [hn] at h
  | ok v =>
    obtain ⟨name, pos1⟩ := v
    simp only [hn] at h
    simp only [nameParse_mono hn]
    cases ht : getU16 (b.take k) pos1 with
    | error er => simp [ht] at h
    | ok w =>
      obtain ⟨tv, pos2⟩ := w
      simp only [ht] at h
      simp only [getU16_mono ht]
      cases htt : DnsType.tryFrom tv with
      | error er => simp [htt] at h
      | ok qt =>
        simp only [htt] at h ⊢
        cases hc : getU16 (b.take k) pos2 with
        | error er => simp [hc] at h
        | ok u =>
          obtain ⟨cv, pos3⟩ := u
          simp only [hc] at h
          simp only [getU16_mono hc]
          cases hcc : DnsClass.tryFrom cv with
          | error er => simp [hcc] at h
          | ok qc =>
            simp only [hcc] at h ⊢
            cases hg : getU32 (b.take k) pos3 with
            | error er => simp [hg] at h
            | ok w2 =>
              obtain ⟨ttl, pos4⟩ := w2
              simp only [hg] at h
              simp only [getU32_mono hg]
              cases hr : getU16 (b.take k) pos4 with
              | error er => simp [hr] at h
              | ok w3 =>
                obtain ⟨rdl, pos5⟩ := w3
                simp only [hr] at h
                simp only [getU16_mono hr]
                cases ha : getU32 (b.take k) pos5 with
                | error er => simp [ha] at h
                | ok w4 =>
                  obtain ⟨addr, pos6⟩ := w4
                  simp only [ha] at h
                  simp only [getU32_mono ha]
                  exact h

/-- `ResourceRecord::try_parse` end-position bound. -/
theorem recordParse_end_le {b : List Nat} {pos : Nat}
    {r : ResourceRecord} {e : Nat}
    (h : ResourceRecord.tryParse b pos = .ok (r, e)) : e ≤ b.length := by
  unfold ResourceRecord.tryParse at h
  cases hn : Name.tryParse b pos with
  | error er => simp [hn] at h
  | ok v =>
    obtain ⟨name, pos1⟩ := v
    simp only [hn] at h
    cases ht : getU16 b pos1 with
    | error er => simp [ht] at h
    | ok w =>
      obtain ⟨tv, pos2⟩ := w
      simp only [ht] at h
      cases htt : DnsType.tryFrom tv with
      | error er => simp [htt] at h
      | ok qt =>
        simp only [htt] at h
        cases hc : getU16 b pos2 with
        | error er => simp [hc] at h
        | ok u =>
          obtain ⟨cv, pos3⟩ := u
          simp only [hc] at h
          cases hcc : DnsClass.tryFrom cv with
          | error er => simp [hcc] at h
          | ok qc =>
            simp only [hcc] at h
            cases hg : getU32 b pos3 with
            | error er => simp [hg] at h
            | ok w2 =>
              obtain ⟨ttl, pos4⟩ := w2
              simp only [hg] at h
              cases hr : getU16 b pos4 with
              | error er => simp [hr] at h
              | ok w3 =>
                obtain ⟨rdl, pos5⟩ := w3
                simp only [hr] at h
                cases ha : getU32 b pos5 with
                | error er => simp [ha] at h
                | ok w4 =>
                  obtain ⟨addr, pos6⟩ := w4
                  simp only [ha, Except.ok.injEq, Prod.mk.injEq] at h
                  have := getU32_end_le ha
                  omega

/-- `parseCount` prefix lifting, given element-parser lifting. -/
theorem parseCount_mono {α : Type} (p : List Nat → Nat → Except DnsError (α × Nat))
    (b : List Nat) (k : Nat)
    (pm : ∀ (pos : Nat) (x : α) (e : Nat),
      p (b.take k) pos = .ok (x, e) → p b pos = .ok (x, e)) :
    ∀ (n pos : Nat) (xs : List α) (e : Nat),
      parseCount p (b.take k) n pos = .ok (xs, e) →
      parseCount p b n pos = .ok (xs, e) := by
  intro n
  induction n with
  | zero => intro pos xs e h; simpa [parseCount] using h
  | succ m ih =>
    intro pos xs e h
    unfold parseCount at h ⊢
    cases hp : p (b.take k) pos with
    | error er => simp [hp] at h
    | ok v =>
      obtain ⟨x, pos1⟩ := v
      simp only [hp] at h
      simp only [pm pos x pos1 hp]
      cases hr : parseCount p (b.take k) m pos1 with
      | error er => simp [hr] at h
      | ok w =>
        obtain ⟨ys, pos2⟩ := w
        simp only [hr] at h
        simp only [ih pos1 ys pos2 hr]
        exact h

/-- `parseCount` end-position bound, given an element bound. -/
theorem parseCount_end_le {α : Type} (p : List Nat → Nat → Except DnsError (α × Nat))
    (b : List Nat)
    (pe : ∀ (pos : Nat) (x : α) (e : Nat), p b pos = .ok (x, e) → e ≤ b.length) :
    ∀ (n pos : Nat) (xs : List α) (e : Nat), pos ≤ b.length →
      parseCount p b n pos = .ok (xs, e) → e ≤ b.length := by
  intro n
  induction n with
  | zero =>
    intro pos xs e hpos h
    simp only [parseCount, Except.ok.injEq, Prod.mk.injEq] at h
    omega
  | succ m ih =>
    intro pos xs e hpos h
    unfold parseCount at h
    cases hp : p b pos with
    | error er => simp [hp] at h
    | ok v =>
      obtain ⟨x, pos1⟩ := v
      simp only [hp] at h
      cases hr : parseCount p b m pos1 with
      | error er => simp [hr] at h
      | ok w =>
        obtain ⟨ys, pos2⟩ := w
        simp only [hr, Except.ok.injEq, Prod.mk.injEq] at h
        have h1 := pe pos x pos1 hp
        have h2 := ih pos1 ys pos2 h1 hr
        omega

/-- `DnsMessage::try_parse` prefix lifting. -/
theorem messageParse_mono {b : List Nat} {k pos : Nat}
    {m : DnsMessage} {e : Nat}
    (h : DnsMessage.tryParse (b.take k) pos = .ok (m, e)) :
    DnsMessage.tryParse b pos = .ok (m, e) := by
  unfold DnsMessage.tryParse at *
  cases hh : DnsHeader.tryParse (b.take k) pos with
  | error er => simp [hh] at h
  | ok v =>
    obtain ⟨header, pos1⟩ := v
    simp only [hh] at h
    simp only [headerParse_mono hh]
    cases hq : parseCount DnsQuestion.tryParse (b.take k) header.question_count pos1 with
    | error er => simp [hq] at h
    | ok w =>
      obtain ⟨questions, pos2⟩ := w
      simp only [hq] at h
      simp only [parseCount_mono DnsQuestion.tryParse b k
        (fun pos x e hx => questionParse_mono hx) header.question_count
        pos1 questions pos2 hq]
      cases hr : parseCount ResourceRecord.tryParse (b.take k)
          header.answer_record_count pos2 with
      | error er => simp [hr] at h
      | ok u =>
        obtain ⟨records, pos3⟩ := u
        simp only [hr] at h
        simp only [parseCount_mono ResourceRecord.tryParse b k
          (fun pos x e hx => recordParse_mono hx)
          header.answer_record_count pos2 records pos3 hr]
        exact h

/-- `DnsMessage::try_parse` end-position bound. -/
theorem messageParse_end_le {b : List Nat} {pos : Nat}
    {m : DnsMessage} {e : Nat}
    (h : DnsMessage.tryParse b pos = .ok (m, e)) : e ≤ b.length := by
  unfold DnsMessage.tryParse at h
  cases hh : DnsHeader.tryParse b pos with
  | error er => simp [hh] at h
  | ok v =>
    obtain ⟨header, pos1⟩ := v
    simp only [hh] at h
    have hh2 := headerParse_end_le hh
    cases hq : parseCount DnsQuestion.tryParse b header.question_count pos1 with
    | error er => simp [hq] at h
    | ok w =>
      obtain ⟨questions, pos2⟩ := w
      simp only [hq] at h
      have hq2 := parseCount_end_le DnsQuestion.tryParse b
        (fun pos x e hx => questionParse_end_le hx)
        header.question_count pos1 questions pos2 (by omega) hq
      cases hr : parseCount ResourceRecord.tryParse b
          header.answer_record_count pos2 with
      | error er => simp [hr] at h
      | ok u =>
        obtain ⟨records, pos3⟩ := u
        simp only [hr, Except.ok.injEq, Prod.mk.injEq] at h
        have hr2 := parseCount_end_le ResourceRecord.tryParse b
          (fun pos x e hx => recordParse_end_le hx)
          header.answer_record_count pos2 records pos3 hq2 hr
        omega



/-- C3 (counterexample): a fully parseable 18-byte message whose single
question name is a compression pointer (to offset 12, where the first
zero byte is supplied by the type field) parses successfully, but its
14-byte strict prefix fails with `InvalidName "null terminator missing"`,
NOT with `NotEnoughData`: truncation cut off the zero byte the pointer
scan was relying on. -/
theorem C3_truncation_counterexample :
    DnsMessage.tryParse [0, 1, 0, 0, 0, 1, 0, 0, 0, 0, 0, 0, 192, 12, 0, 1, 0, 1] 0 =
      .ok (⟨⟨1, false, .StandardQuery, false, false, false, false, 0, 0, 1, 0, 0, 0⟩,
        [⟨⟨[⟨[192, 12]⟩]⟩, .A, .IN⟩], []⟩, 18) ∧
    ([0, 1, 0, 0, 0, 1, 0, 0, 0, 0, 0, 0, 192, 12, 0, 1, 0, 1].take 14).length < 18 ∧
    DnsMessage.tryParse
        ([0, 1, 0, 0, 0, 1, 0, 0, 0, 0, 0, 0, 192, 12, 0, 1, 0, 1].take 14) 0 =
      .error (.InvalidName "null terminator missing") := by
  refine ⟨by decide, by decide, by decide⟩

/-- C3 (amended): whenever `DnsMessage::try_parse` succeeds on a buffer,
consuming `c` bytes, parsing any strict prefix shorter than `c` fails with
SOME `DnsError` — it can never produce a `Message` — and, the parsers
being functions over the prefix list, they read nothing outside it. The
error is not always `NotEnoughData`: with compression pointers it can be
`InvalidName` (see the counterexample). -/
theorem C3_prefix_parse_fails (b : List Nat) (m : DnsMessage) (c k : Nat)
    (h : DnsMessage.tryParse b 0 = .ok (m, c)) (hk : k < c) :
    ∃ er, DnsMessage.tryParse (b.take k) 0 = .error er := by
  cases hp : DnsMessage.tryParse (b.take k) 0 with
  | error er => exact ⟨er, rfl⟩
  | ok v =>
    exfalso
    obtain ⟨m2, e2⟩ := v
    have hb := messageParse_mono hp
    rw [h] at hb
    simp only [Except.ok.injEq, Prod.mk.injEq] at hb
    have he := messageParse_end_le hp
    have hlen : (b.take k).length ≤ k := by
      simp [List.length_take]
    omega

/-- C3 witness: the counterexample message truncated to 14 bytes fails
with an error (here `InvalidName`). -/
theorem C3_prefix_parse_fails_witness :
    ∃ er, DnsMessage.tryParse
        ([0, 1, 0, 0, 0, 1, 0, 0, 0, 0, 0, 0, 192, 12, 0, 1, 0, 1].take 14) 0 =
      .error er :=
  C3_prefix_parse_fails [0, 1, 0, 0, 0, 1, 0, 0, 0, 0, 0, 0, 192, 12, 0, 1, 0, 1]
    ⟨⟨1, false, .StandardQuery, false, false, false, false, 0, 0, 1, 0, 0, 0⟩,
      [⟨⟨[⟨[192, 12]⟩]⟩, .A, .IN⟩], []⟩ 18 14 (by decide) (by decide)


end Dns
